import Mathlib

set_option maxRecDepth 10000

/-!
Verification of the in-memory TTL cache and the README usage-example
extractor of the swift-package-readme MCP server.

The definitions below are a shallow embedding of `src/services/cache.ts`
and `src/services/readme-parser.ts`:

* JavaScript `Map` objects are modelled as association lists in insertion
  order (`Map.set` on an existing key updates the value in place, keeping
  the key's original position; iteration and `keys().next()` follow
  insertion order).
* `Date.now()` is passed explicitly as a `now : Nat` argument (milliseconds).
* Cached values are modelled by `Value`: a value is either serializable
  with a known `JSON.stringify` image, or fails to serialize (a circular
  structure).  `estimateSize` mirrors `estimateSize` in `cache.ts`:
  twice the length of the serialized form, or the 1024-byte fallback when
  serialization throws.
* `evictLRU` in `cache.ts` deletes the first key of the map only when that
  key is truthy; an empty-string key therefore makes the eviction loop in
  `set` spin forever.  `set` consequently returns an `Option`: `none`
  models the non-terminating run.
-/

namespace SwiftPkgReadme

/-- A cached value: either a value whose `JSON.stringify` image is the given
string, or a value (e.g. one with a circular reference) whose serialization
throws. -/
inductive Value where
  | json : String → Value
  | circular : Value
deriving DecidableEq

/-- `estimateSize` from `cache.ts`: `JSON.stringify(obj).length * 2`, with a
1024-byte default when serialization fails. -/
def estimateSize : Value → Nat
  | .json s => s.length * 2
  | .circular => 1024

/-- `CacheEntry` from `types/index.ts`: payload, insertion time (ms) and
time-to-live (ms). -/
structure CacheEntry where
  data : Value
  timestamp : Nat
  ttl : Nat
deriving DecidableEq

/-- The backing `Map<string, CacheEntry>` as an association list in
insertion order. -/
abbrev EntryList := List (String × CacheEntry)

/-- `Map.get`. -/
def mapGet (k : String) : EntryList → Option CacheEntry
  | [] => none
  | (k', e) :: rest => if k' = k then some e else mapGet k rest

/-- `Map.set`: update in place when the key is present (keeping its
position), append otherwise. -/
def mapSet (k : String) (e : CacheEntry) : EntryList → EntryList
  | [] => [(k, e)]
  | (k', e') :: rest => if k' = k then (k, e) :: rest else (k', e') :: mapSet k e rest

/-- `Map.delete` (ignoring the returned boolean). -/
def mapDelete (k : String) : EntryList → EntryList
  | [] => []
  | (k', e') :: rest => if k' = k then rest else (k', e') :: mapDelete k rest

/-- The expiry test used by `get`, `has` and `evictExpired`:
`Date.now() - entry.timestamp > entry.ttl`. -/
def isExpired (now : Nat) (e : CacheEntry) : Bool :=
  decide (now - e.timestamp > e.ttl)

/-- `getCurrentSize` from `cache.ts`: the sum of the estimated sizes of the
stored values. -/
def currentSize (l : EntryList) : Nat :=
  (l.map (fun p => estimateSize p.2.data)).sum

/-- `MemoryCache` state: the backing map plus the two configuration fields. -/
structure MemoryCache where
  entries : EntryList
  maxSize : Nat
  defaultTtl : Nat
deriving DecidableEq

/-- JavaScript `x || d` on numbers: `0` (and an absent value) falls back to
the default. -/
def orFalsyDefault : Option Nat → Nat → Nat
  | some n, d => if n = 0 then d else n
  | none, d => d

/-- The `MemoryCache` constructor: `maxSize: options.maxSize || 100 MiB`,
`defaultTtl: options.ttl || 3600`. -/
def MemoryCache.create (ttlOpt maxSizeOpt : Option Nat) : MemoryCache :=
  { entries := []
    maxSize := orFalsyDefault maxSizeOpt (100 * 1024 * 1024)
    defaultTtl := orFalsyDefault ttlOpt 3600 }

/-- `evictExpired`: remove every entry whose expiry has passed. -/
def MemoryCache.evictExpired (now : Nat) (c : MemoryCache) : MemoryCache :=
  { c with entries := c.entries.filter (fun p => ! isExpired now p.2) }

/-- The `while (getCurrentSize() + estimatedSize > maxSize && size > 0)
evictLRU()` loop of `set`.  `evictLRU` deletes the first key of the map,
but only when that key is truthy: a leading empty-string key makes the
loop spin forever, modelled as `none`. -/
def makeRoom (sz maxSize : Nat) : EntryList → Option EntryList
  | [] => some []
  | (k, e) :: rest =>
    if currentSize ((k, e) :: rest) + sz > maxSize then
      if k = "" then none else makeRoom sz maxSize rest
    else some ((k, e) :: rest)

/-- `(ttl || this.defaultTtl)`: a zero or absent per-call TTL falls back to
the partition default. -/
def resolveTtl (t : Option Nat) (defaultTtl : Nat) : Nat :=
  orFalsyDefault t defaultTtl

/-- `MemoryCache.set`: sweep expired entries, refuse an oversized value
(after the sweep), evict from the front of the map until the new entry
fits, then insert.  `none` models the non-terminating eviction loop. -/
def MemoryCache.set (now : Nat) (k : String) (v : Value) (t : Option Nat)
    (c : MemoryCache) : Option MemoryCache :=
  let entry : CacheEntry := ⟨v, now, resolveTtl t c.defaultTtl * 1000⟩
  let c1 := c.evictExpired now
  let sz := estimateSize v
  if sz > c.maxSize then some c1
  else
    match makeRoom sz c.maxSize c1.entries with
    | none => none
    | some l => some { c1 with entries := mapSet k entry l }

/-- `MemoryCache.get`: return the unexpired value, deleting an expired
entry as a side effect. -/
def MemoryCache.get (now : Nat) (k : String) (c : MemoryCache) :
    Option Value × MemoryCache :=
  match mapGet k c.entries with
  | none => (none, c)
  | some e =>
    if isExpired now e then (none, { c with entries := mapDelete k c.entries })
    else (some e.data, c)

/-- `MemoryCache.has`: the same expiry-aware presence check as `get`. -/
def MemoryCache.has (now : Nat) (k : String) (c : MemoryCache) :
    Bool × MemoryCache :=
  match mapGet k c.entries with
  | none => (false, c)
  | some e =>
    if isExpired now e then (false, { c with entries := mapDelete k c.entries })
    else (true, c)

/-- `MemoryCache.delete`. -/
def MemoryCache.delete (k : String) (c : MemoryCache) : Bool × MemoryCache :=
  ((mapGet k c.entries).isSome, { c with entries := mapDelete k c.entries })

/-- `MemoryCache.clear`. -/
def MemoryCache.clear (c : MemoryCache) : MemoryCache :=
  { c with entries := [] }

/-- `MemoryCache.getStats`: entry count and recomputed footprint. -/
def MemoryCache.getStats (c : MemoryCache) : Nat × Nat :=
  (c.entries.length, currentSize c.entries)

/-- `CacheManager`: four `MemoryCache` partitions. -/
structure CacheManager where
  packageInfoCache : MemoryCache
  packageReadmeCache : MemoryCache
  searchCache : MemoryCache
  generalCache : MemoryCache
deriving DecidableEq

/-- The `CacheManager` constructor.  `envTtl` and `envMaxSize` model the
parsed `CACHE_TTL` and `CACHE_MAX_SIZE` environment variables, `none`
meaning unset (so `parseInt` falls back to `'3600'` / `'104857600'`). -/
def CacheManager.init (envTtl envMaxSize : Option Nat) : CacheManager :=
  let ttl := envTtl.getD 3600
  let maxSize := envMaxSize.getD 104857600
  { packageInfoCache := MemoryCache.create (some ttl) (some maxSize)
    packageReadmeCache := MemoryCache.create (some ttl) (some maxSize)
    searchCache := MemoryCache.create (some 1800) (some maxSize)
    generalCache := MemoryCache.create (some ttl) (some maxSize) }

/-- Key construction for the package-info partition. -/
def pkgInfoKey (name version : String) : String :=
  "pkg_info:" ++ name ++ ":" ++ version

/-- Key construction for the README partition. -/
def pkgReadmeKey (name version : String) : String :=
  "pkg_readme:" ++ name ++ ":" ++ version

/-- `CacheManager.setPackageInfo`. -/
def CacheManager.setPackageInfo (now : Nat) (name version : String) (v : Value)
    (m : CacheManager) : Option CacheManager :=
  (m.packageInfoCache.set now (pkgInfoKey name version) v none).map
    (fun c => { m with packageInfoCache := c })

/-- `CacheManager.getPackageInfo`. -/
def CacheManager.getPackageInfo (now : Nat) (name version : String)
    (m : CacheManager) : Option Value × CacheManager :=
  let r := m.packageInfoCache.get now (pkgInfoKey name version)
  (r.1, { m with packageInfoCache := r.2 })

/-- `CacheManager.setPackageReadme`. -/
def CacheManager.setPackageReadme (now : Nat) (name version : String) (v : Value)
    (m : CacheManager) : Option CacheManager :=
  (m.packageReadmeCache.set now (pkgReadmeKey name version) v none).map
    (fun c => { m with packageReadmeCache := c })

/-- `CacheManager.getPackageReadme`. -/
def CacheManager.getPackageReadme (now : Nat) (name version : String)
    (m : CacheManager) : Option Value × CacheManager :=
  let r := m.packageReadmeCache.get now (pkgReadmeKey name version)
  (r.1, { m with packageReadmeCache := r.2 })

/-- `CacheManager.setSearchResults`. -/
def CacheManager.setSearchResults (now : Nat) (queryHash : String) (limit : Nat)
    (v : Value) (m : CacheManager) : Option CacheManager :=
  (m.searchCache.set now ("search:" ++ queryHash ++ ":" ++ toString limit) v none).map
    (fun c => { m with searchCache := c })

/-- `CacheManager.setGeneral`. -/
def CacheManager.setGeneral (now : Nat) (k : String) (v : Value) (t : Option Nat)
    (m : CacheManager) : Option CacheManager :=
  (m.generalCache.set now k v t).map (fun c => { m with generalCache := c })

/-- The combined estimated footprint of the four partitions of a manager. -/
def managerTotalSize (m : CacheManager) : Nat :=
  currentSize m.packageInfoCache.entries + currentSize m.packageReadmeCache.entries +
    currentSize m.searchCache.entries + currentSize m.generalCache.entries

/-- A cache whose recomputed footprint respects its own budget. -/
def cacheBounded (c : MemoryCache) : Prop :=
  currentSize c.entries ≤ c.maxSize

/-- All four partitions of a manager respect their own budgets. -/
def managerBounded (m : CacheManager) : Prop :=
  cacheBounded m.packageInfoCache ∧ cacheBounded m.packageReadmeCache ∧
    cacheBounded m.searchCache ∧ cacheBounded m.generalCache

/-- All four partitions of a manager are configured with the same budget. -/
def managerMaxSizesEq (m : CacheManager) (M : Nat) : Prop :=
  m.packageInfoCache.maxSize = M ∧ m.packageReadmeCache.maxSize = M ∧
    m.searchCache.maxSize = M ∧ m.generalCache.maxSize = M

/-- A 40-character serializable value (estimated size 80 bytes). -/
def str40Value : Value :=
  Value.json "0123456789012345678901234567890123456789"

/-- A manager configured with a 100-byte budget (`CACHE_MAX_SIZE=100`). -/
def smallManager : CacheManager := CacheManager.init none (some 100)

/-- `smallManager` after storing an 80-byte value in the package-info
partition and another 80-byte value in the README partition. -/
def smallManagerFilled : Option CacheManager :=
  (smallManager.setPackageInfo 0 "p" "1" str40Value).bind
    (CacheManager.setPackageReadme 1 "p" "1" str40Value)

/-- A 45-character serializable value (estimated size 90 bytes). -/
def str45Value : Value :=
  Value.json "012345678901234567890123456789012345678901234"

/-- An empty 100-byte cache used for the eviction-order run. -/
def evictRunCache0 : MemoryCache := ⟨[], 100, 3600⟩

/-- Eviction-order run, step 1: insert key `a` at time 0. -/
def evictRun1 : Option MemoryCache :=
  MemoryCache.set 0 "a" (Value.json "1234") none evictRunCache0

/-- Step 2: insert key `b` at time 1. -/
def evictRun2 : Option MemoryCache :=
  evictRun1.bind (MemoryCache.set 1 "b" (Value.json "5678") none)

/-- Step 3: overwrite key `a` at time 2 (the key keeps its map position but
gets the newest timestamp). -/
def evictRun3 : Option MemoryCache :=
  evictRun2.bind (MemoryCache.set 2 "a" (Value.json "wxyz") none)

/-- Step 4: insert the 90-byte key `c` at time 3, forcing one eviction. -/
def evictRun4 : Option MemoryCache :=
  evictRun3.bind (MemoryCache.set 3 "c" str45Value none)

/-- A default-configured manager after storing a README payload at time 0. -/
def readmeRun : Option CacheManager :=
  CacheManager.setPackageReadme 0 "pkg" "1.0.0" (Value.json "readme text")
    (CacheManager.init none none)

/-- The manager state reached by `readmeRun`, written out explicitly. -/
def readmeRunResult : CacheManager :=
  ⟨⟨[], 104857600, 3600⟩,
   ⟨[("pkg_readme:pkg:1.0.0", ⟨Value.json "readme text", 0, 3600000⟩)], 104857600, 3600⟩,
   ⟨[], 104857600, 1800⟩,
   ⟨[], 104857600, 3600⟩⟩

/-- JavaScript strings are modelled as lists of characters (the source
documents handled below are ASCII, for which this matches UTF-16 code-unit
indexing). -/
abbrev Chars := List Char

/-- The JavaScript regex class `\s` restricted to its ASCII members (the
documents below contain no Unicode whitespace). -/
def jsWhitespace (c : Char) : Bool :=
  c = (' ') || c = ('\t') || c = ('\n') || c = ('\r') || c = ('\x0b') || c = ('\x0c')

/-- `String.prototype.trim`: strip `\s` from both ends. -/
def trimChars (l : Chars) : Chars :=
  ((l.dropWhile jsWhitespace).reverse.dropWhile jsWhitespace).reverse

/-- `String.prototype.split('\n')`. -/
def splitLines : Chars → List Chars
  | [] => [[]]
  | c :: rest =>
    if c = ('\n') then [] :: splitLines rest
    else
      match splitLines rest with
      | [] => [[c]]
      | l :: ls => (c :: l) :: ls

/-- The JavaScript regex class `\w` (ASCII letters, digits, underscore). -/
def isWordChar (c : Char) : Bool :=
  c.isAlphanum || c = ('_')

/-- The three-backtick fence delimiter. -/
def fence : Chars := "```".data

/-- Position of the first occurrence of the fence in the text, if any (the
lazy `[\s\S]*?` body of `CODE_BLOCK_PATTERN` ends at the earliest closing
fence). -/
def findFence : Chars → Option Nat
  | [] => none
  | c :: rest =>
    if fence.isPrefixOf (c :: rest) then some 0
    else (findFence rest).map (fun n => n + 1)

/-- Attempt to match `CODE_BLOCK_PATTERN` = three backticks, an optional
`\w+` language tag, a newline, a lazy body, and a closing fence, exactly at
the head of `cs`.  Returns the optional tag, the raw body, and the text
after the closing fence.  Because `\w` excludes the hyphen, a tag followed
by anything but a newline (after backtracking over the optional group)
fails the whole match at this position. -/
def tryMatchAt (cs : Chars) : Option (Option Chars × Chars × Chars) :=
  if fence.isPrefixOf cs then
    let rest := cs.drop 3
    let tag := rest.takeWhile isWordChar
    match rest.drop tag.length with
    | c :: body =>
      if c = ('\n') then
        match findFence body with
        | some n => some (if tag.isEmpty then none else some tag, body.take n, body.drop (n + 3))
        | none => none
      else none
    | [] => none
  else none

/-- The global `exec` loop of `CODE_BLOCK_PATTERN`: find successive
non-overlapping matches, scanning forward one character at a time between
matches.  `fuel` bounds the recursion; every call site passes the text
length, which suffices because each step consumes at least one character.
Each entry is `(optional tag, raw body, match index)`. -/
def scanBlocks : Nat → Nat → Chars → List (Option Chars × Chars × Nat)
  | 0, _, _ => []
  | fuel + 1, idx, cs =>
    match tryMatchAt cs with
    | some (tag, body, rest) =>
      (tag, body, idx) :: scanBlocks fuel (idx + (cs.length - rest.length)) rest
    | none =>
      match cs with
      | [] => []
      | _ :: rest => scanBlocks fuel (idx + 1) rest

/-- The fixed language-synonym table of `normalizeLanguage`. -/
def languageMap : List (Chars × Chars) :=
  [("js".data, "javascript".data),
   ("ts".data, "typescript".data),
   ("sh".data, "bash".data),
   ("shell".data, "bash".data),
   ("zsh".data, "bash".data),
   ("fish".data, "bash".data),
   ("yml".data, "yaml".data),
   ("md".data, "markdown".data),
   ("swift".data, "swift".data),
   ("objective-c".data, "objc".data),
   ("objectivec".data, "objc".data)]

/-- Table lookup (`languageMap[normalized]`). -/
def lookupLang (k : Chars) : Option Chars :=
  (languageMap.find? (fun p => p.1 == k)).map (fun p => p.2)

/-- `normalizeLanguage`: lowercase and trim the tag, apply the synonym
table, pass unrecognized tags through, and send an empty tag to `text`. -/
def normalizeLanguage (language : Chars) : Chars :=
  let normalized := trimChars (language.map Char.toLower)
  match lookupLang normalized with
  | some v => v
  | none => if normalized.isEmpty then "text".data else normalized

/-- One captured fenced code block: trimmed body, normalized language, and
the match's index into the scanned text. -/
structure CodeBlock where
  code : Chars
  language : Chars
  originalIndex : Nat
deriving DecidableEq

/-- `extractCodeBlocksFromText`: run the pattern over the text, defaulting
an absent tag to `text`, trimming the body, and dropping blocks whose
trimmed body is empty. -/
def extractCodeBlocksFromText (text : Chars) : List CodeBlock :=
  (scanBlocks text.length 0 text).filterMap (fun b =>
    let language := b.1.getD ("text".data)
    let code := trimChars b.2.1
    if code.isEmpty then none
    else some ⟨code, normalizeLanguage language, b.2.2⟩)

/-- The usage-indicating phrases of `USAGE_SECTION_PATTERNS` (both regexes
combined; each alternative matches as a prefix of the heading text,
case-insensitively). -/
def usagePhrases : List Chars :=
  ["usage", "use", "using", "how to use", "getting started", "quick start",
   "example", "examples", "basic usage", "api usage", "tutorial",
   "installation and usage", "setup and usage"].map String.data

/-- `USAGE_SECTION_PATTERNS.some(p => p.test(line))`: one to six leading
`#`, optional whitespace, then one of the phrases as a case-insensitive
prefix.  (With seven or more leading `#` no backtracking alternative
leaves a phrase or whitespace character next, so the regex fails.) -/
def isUsageHeader (line : Chars) : Bool :=
  let n := (line.takeWhile (fun c => c = ('#'))).length
  if n = 0 || n > 6 then false
  else
    let rest := (line.drop n).dropWhile jsWhitespace
    usagePhrases.any (fun p => p.isPrefixOf (rest.map Char.toLower))

/-- `line.match(/^#{1,6}\s/)`: one to six leading `#` followed by a
whitespace character. -/
def isHeaderLine (line : Chars) : Bool :=
  let n := (line.takeWhile (fun c => c = ('#'))).length
  decide (1 ≤ n) && decide (n ≤ 6) &&
    (match line.drop n with
     | c :: _ => jsWhitespace c
     | [] => false)

/-- `line.replace(/^#{1,6}\s*/, '').trim()`: strip at most six leading `#`
and the following whitespace, then trim. -/
def headerTitle (line : Chars) : Chars :=
  let n := min ((line.takeWhile (fun c => c = ('#'))).length) 6
  trimChars ((line.drop n).dropWhile jsWhitespace)

/-- A usage section: heading text and the joined, trimmed body. -/
structure UsageSection where
  title : Chars
  content : Chars
deriving DecidableEq

/-- Closing a section in `findUsageSections`: join the accumulated lines
with newlines, trim, and keep the section only when the content is
non-empty. -/
def sectionClose (title : Chars) (accRev : List Chars) : List UsageSection :=
  let content := trimChars (List.intercalate [('\n')] accRev.reverse)
  if content.isEmpty then [] else [⟨title, content⟩]

/-- The line scan of `findUsageSections`.  The first component of the state
is the open section (heading text and the lines collected so far, in
reverse).  A usage heading closes any open section and opens a new one; any
other heading closes the open section; other lines accumulate. -/
def fusAux : Option (Chars × List Chars) → List Chars → List UsageSection
  | cur, [] =>
    match cur with
    | some (t, acc) => sectionClose t acc
    | none => []
  | cur, line :: rest =>
    if isUsageHeader line then
      (match cur with
       | some (t, acc) => sectionClose t acc
       | none => []) ++ fusAux (some (headerTitle line, [])) rest
    else if isHeaderLine line then
      (match cur with
       | some (t, acc) => sectionClose t acc
       | none => []) ++ fusAux none rest
    else
      match cur with
      | some (t, acc) => fusAux (some (t, line :: acc)) rest
      | none => fusAux none rest

/-- `findUsageSections`. -/
def findUsageSections (lines : List Chars) : List UsageSection :=
  fusAux none lines

/-- The backward line scan of `extractDescriptionForCodeBlock`: walk the
lines preceding the block in reverse, skipping blanks, stopping at a
heading or another fence, collecting at most three trimmed lines. -/
def collectDescLines : List Chars → List Chars → List Chars
  | [], acc => acc
  | line :: rest, acc =>
    let t := trimChars line
    if t.isEmpty then collectDescLines rest acc
    else if isHeaderLine t then acc
    else if fence.isPrefixOf t then acc
    else
      let acc2 := t :: acc
      if 3 ≤ acc2.length then acc2 else collectDescLines rest acc2

/-- `extractDescriptionForCodeBlock`: derive a description from up to three
non-empty lines before the block; discard it unless strictly longer than 10
characters. -/
def extractDescription (content : Chars) (codeBlockIndex : Nat) : Option Chars :=
  let revLines := (splitLines (content.take codeBlockIndex)).reverse
  let descLines := collectDescLines revLines []
  let d := trimChars (List.intercalate [(' ')] descLines)
  if 10 < d.length then some d else none

/-- `UsageExample` from `types/index.ts`. -/
structure UsageExample where
  title : Chars
  code : Chars
  language : Chars
  description : Option Chars
deriving DecidableEq

/-- `Array.prototype.forEach` with an index, starting at `start`. -/
def mapWithIndexFrom (f : Nat → CodeBlock → UsageExample) :
    Nat → List CodeBlock → List UsageExample
  | _, [] => []
  | i, b :: bs => f i b :: mapWithIndexFrom f (i + 1) bs

/-- `extractExamplesFromSection`: one example per code block; a single
block takes the section heading verbatim as title, several blocks get the
heading plus a 1-based index. -/
def extractExamplesFromSection (title content : Chars) : List UsageExample :=
  let codeBlocks := extractCodeBlocksFromText content
  mapWithIndexFrom
    (fun index block =>
      { title :=
          if codeBlocks.length = 1 then title
          else title ++ ((' ') :: (toString (index + 1)).data)
        code := block.code
        language := block.language
        description := extractDescription content block.originalIndex })
    0 codeBlocks

/-- One line of the all-imports-or-comments test of `isValidUsageExample`. -/
def isImportOrCommentLine (l : Chars) : Bool :=
  let t := trimChars l
  "import ".data.isPrefixOf t || "//".data.isPrefixOf t || t.isEmpty

/-- `isValidUsageExample`: non-empty, at least 10 characters, not only
imports/comments, and free of transcript markers (checkmark, arrow, `$`). -/
def isValidUsageExample (e : UsageExample) : Bool :=
  let code := trimChars e.code
  if code.isEmpty then false
  else if code.length < 10 then false
  else if (splitLines code).all isImportOrCommentLine then false
  else if code.contains ('✓') || code.contains ('→') || code.contains ('$') then false
  else true

/-- `cleanUsageExample`: trim every string field; an all-whitespace
description becomes absent. -/
def cleanUsageExample (e : UsageExample) : UsageExample :=
  { title := trimChars e.title
    code := trimChars e.code
    language := trimChars e.language
    description :=
      match e.description with
      | none => none
      | some d => if (trimChars d).isEmpty then none else some (trimChars d) }

/-- The section-scoped candidates of `extractUsageExamples` (the `examples`
array before the fallback check). -/
def sectionExamples (content : Chars) : List UsageExample :=
  ((findUsageSections (splitLines content)).map
    (fun s => extractExamplesFromSection s.title s.content)).flatten

/-- The whole-document fallback: every fenced block of the document, each
titled `Usage Example` with no description. -/
def fallbackExamples (content : Chars) : List UsageExample :=
  (extractCodeBlocksFromText content).map
    (fun b => ⟨"Usage Example".data, b.code, b.language, none⟩)

/-- `extractUsageExamples`: section-scoped candidates, the whole-document
fallback when they are empty, then the validity filter, field trimming, and
the 10-example cap. -/
def extractUsageExamples (content : Chars) : List UsageExample :=
  let examples := sectionExamples content
  let all := if examples.isEmpty then fallbackExamples content else examples
  ((all.filter isValidUsageExample).map cleanUsageExample).take 10

/-- The round-trip document of the spec: a `Usage` heading over one fenced
`swift` block. -/
def usageDoc8 : String := "## Usage\n```swift\nlet x = Manager()\n```"

/-- A section body holding two fenced blocks (for the multi-block title
numbering). -/
def twoBlockSection : String := "```swift\nlet a = Alpha()\n```\n```swift\nlet b = Beta()\n```"

/-- A document that contains a usage heading (`## Usage`) whose section
holds no code block, while a fenced block sits under an earlier non-usage
heading. -/
def fallbackCexDoc : String :=
  "# Intro\n```swift\nlet x = Manager()\n```\n## Usage\njust words here"

/-- Fifteen valid fenced blocks under one usage heading. -/
def capDoc15 : String :=
  "## Usage\n```swift\nlet value01 = Example01()\n```\n```swift\nlet value02 = Example02()\n```\n```swift\nlet value03 = Example03()\n```\n```swift\nlet value04 = Example04()\n```\n```swift\nlet value05 = Example05()\n```\n```swift\nlet value06 = Example06()\n```\n```swift\nlet value07 = Example07()\n```\n```swift\nlet value08 = Example08()\n```\n```swift\nlet value09 = Example09()\n```\n```swift\nlet value10 = Example10()\n```\n```swift\nlet value11 = Example11()\n```\n```swift\nlet value12 = Example12()\n```\n```swift\nlet value13 = Example13()\n```\n```swift\nlet value14 = Example14()\n```\n```swift\nlet value15 = Example15()\n```\n"

/-- A block fenced with the hyphenated tag `objective-c`. -/
def hyphenTagDoc : String := "```objective-c\n[manager doSomethingImportant];\n```"

/-- A block fenced with the tag `objectivec` (no hyphen). -/
def objcTagDoc : String := "```objectivec\n[manager doSomethingImportant];\n```"

theorem mapGet_cons (k k' : String) (e : CacheEntry) (l : EntryList) :
    mapGet k ((k', e) :: l) = if k' = k then some e else mapGet k l := rfl

theorem mapDelete_cons (k k' : String) (e : CacheEntry) (l : EntryList) :
    mapDelete k ((k', e) :: l) = if k' = k then l else (k', e) :: mapDelete k l := rfl

theorem mapSet_cons (k k' : String) (e e' : CacheEntry) (l : EntryList) :
    mapSet k e ((k', e') :: l) =
      if k' = k then (k, e) :: l else (k', e') :: mapSet k e l := rfl

theorem MemoryCache.get_of_none (now : Nat) (k : String) (c : MemoryCache)
    (h : mapGet k c.entries = none) : MemoryCache.get now k c = (none, c) := by
  unfold MemoryCache.get
  rw [h]

theorem MemoryCache.get_of_expired (now : Nat) (k : String) (c : MemoryCache)
    (e : CacheEntry) (h : mapGet k c.entries = some e)
    (hx : isExpired now e = true) :
    MemoryCache.get now k c = (none, { c with entries := mapDelete k c.entries }) := by
  unfold MemoryCache.get
  rw [h]
  simp [hx]

theorem MemoryCache.get_of_fresh (now : Nat) (k : String) (c : MemoryCache)
    (e : CacheEntry) (h : mapGet k c.entries = some e)
    (hx : isExpired now e = false) :
    MemoryCache.get now k c = (some e.data, c) := by
  unfold MemoryCache.get
  rw [h]
  simp [hx]

theorem MemoryCache.has_of_none (now : Nat) (k : String) (c : MemoryCache)
    (h : mapGet k c.entries = none) : MemoryCache.has now k c = (false, c) := by
  unfold MemoryCache.has
  rw [h]

theorem MemoryCache.has_of_expired (now : Nat) (k : String) (c : MemoryCache)
    (e : CacheEntry) (h : mapGet k c.entries = some e)
    (hx : isExpired now e = true) :
    MemoryCache.has now k c = (false, { c with entries := mapDelete k c.entries }) := by
  unfold MemoryCache.has
  rw [h]
  simp [hx]

theorem MemoryCache.has_of_fresh (now : Nat) (k : String) (c : MemoryCache)
    (e : CacheEntry) (h : mapGet k c.entries = some e)
    (hx : isExpired now e = false) :
    MemoryCache.has now k c = (true, c) := by
  unfold MemoryCache.has
  rw [h]
  simp [hx]

theorem mapGet_eq_none_of_not_mem (k : String) (l : EntryList)
    (h : k ∉ l.map Prod.fst) : mapGet k l = none := by
  induction l with
  | nil => rfl
  | cons p rest ih =>
    obtain ⟨k', e'⟩ := p
    simp only [List.map_cons, List.mem_cons, not_or] at h
    rw [mapGet_cons, if_neg (fun hk => h.1 hk.symm)]
    exact ih h.2

theorem mapGet_mapDelete_self (k : String) (l : EntryList)
    (hnd : (l.map Prod.fst).Nodup) : mapGet k (mapDelete k l) = none := by
  induction l with
  | nil => rfl
  | cons p rest ih =>
    simp only [List.map_cons, List.nodup_cons] at hnd
    by_cases h : p.1 = k
    · have : mapDelete k (p :: rest) = rest := by
        simp [mapDelete, h]
      rw [this]
      exact mapGet_eq_none_of_not_mem _ _ (h ▸ hnd.1)
    · have : mapDelete k (p :: rest) = p :: mapDelete k rest := by
        simp [mapDelete, h]
      rw [this]
      simp only [mapGet, if_neg h]
      exact ih hnd.2

theorem mapGet_mapSet_self (k : String) (e : CacheEntry) (l : EntryList) :
    mapGet k (mapSet k e l) = some e := by
  induction l with
  | nil => simp [mapSet, mapGet]
  | cons p rest ih =>
    by_cases h : p.1 = k
    · simp [mapSet, mapGet, h]
    · simp [mapSet, mapGet, h, ih]

theorem currentSize_cons (p : String × CacheEntry) (l : EntryList) :
    currentSize (p :: l) = estimateSize p.2.data + currentSize l := by
  simp [currentSize]

theorem currentSize_mapDelete_le (k : String) (l : EntryList) :
    currentSize (mapDelete k l) ≤ currentSize l := by
  induction l with
  | nil => exact Nat.le_refl _
  | cons p rest ih =>
    by_cases h : p.1 = k
    · have : mapDelete k (p :: rest) = rest := by simp [mapDelete, h]
      rw [this, currentSize_cons]
      exact Nat.le_add_left _ _
    · have : mapDelete k (p :: rest) = p :: mapDelete k rest := by simp [mapDelete, h]
      rw [this, currentSize_cons, currentSize_cons]
      exact Nat.add_le_add_left ih _

theorem currentSize_filter_le (p : String × CacheEntry → Bool) (l : EntryList) :
    currentSize (l.filter p) ≤ currentSize l := by
  induction l with
  | nil => exact Nat.le_refl _
  | cons q rest ih =>
    by_cases h : p q
    · rw [List.filter_cons_of_pos h, currentSize_cons, currentSize_cons]
      exact Nat.add_le_add_left ih _
    · rw [List.filter_cons_of_neg (by simpa using h), currentSize_cons]
      exact Nat.le_trans ih (Nat.le_add_left _ _)

theorem currentSize_mapSet_le (k : String) (e : CacheEntry) (l : EntryList) :
    currentSize (mapSet k e l) ≤ estimateSize e.data + currentSize l := by
  induction l with
  | nil => simp [mapSet, currentSize]
  | cons p rest ih =>
    by_cases h : p.1 = k
    · have : mapSet k e (p :: rest) = (k, e) :: rest := by simp [mapSet, h]
      rw [this, currentSize_cons, currentSize_cons]
      exact Nat.add_le_add_left (Nat.le_add_left _ _) _
    · have : mapSet k e (p :: rest) = p :: mapSet k e rest := by simp [mapSet, h]
      rw [this, currentSize_cons, currentSize_cons]
      omega

theorem makeRoom_spec (sz maxSize : Nat) (l l' : EntryList)
    (h : makeRoom sz maxSize l = some l') :
    currentSize l' + sz ≤ maxSize ∨ l' = [] := by
  induction l with
  | nil =>
    simp only [makeRoom, Option.some_inj] at h
    right; exact h.symm
  | cons p rest ih =>
    obtain ⟨k, e⟩ := p
    simp only [makeRoom] at h
    split at h
    · split at h
      · exact absurd h (by simp)
      · exact ih h
    · rename_i hle
      simp only [Option.some_inj] at h
      subst h
      left
      omega

theorem makeRoom_drop (sz maxSize : Nat) (l l' : EntryList)
    (h : makeRoom sz maxSize l = some l') : ∃ n, l' = l.drop n := by
  induction l with
  | nil =>
    simp only [makeRoom, Option.some_inj] at h
    exact ⟨0, h.symm⟩
  | cons p rest ih =>
    obtain ⟨k, e⟩ := p
    simp only [makeRoom] at h
    split at h
    · split at h
      · exact absurd h (by simp)
      · obtain ⟨n, hn⟩ := ih h
        exact ⟨n + 1, by simpa using hn⟩
    · simp only [Option.some_inj] at h
      exact ⟨0, h.symm⟩

theorem mapGet_filter_none (k : String) (p : String × CacheEntry → Bool)
    (l : EntryList) (h : mapGet k l = none) : mapGet k (l.filter p) = none := by
  induction l with
  | nil => rfl
  | cons q rest ih =>
    simp only [mapGet] at h
    split at h
    · exact absurd h (by simp)
    · rename_i hq
      by_cases hp : p q
      · rw [List.filter_cons_of_pos hp]
        simp only [mapGet, if_neg hq]
        exact ih h
      · rw [List.filter_cons_of_neg (by simpa using hp)]
        exact ih h

/-- C1: `get(key)` returns the stored value exactly when an unexpired entry
for the key exists (`now - timestamp ≤ ttl`); when the entry exists but is
strictly expired, `get` returns an absent result and deletes the entry, and
`has` returns `false`.  Both operations are total functions: a miss or an
expiry is an absent result, never an exception. -/
theorem cache_get_has_ttl_semantics (now : Nat) (k : String) (c : MemoryCache)
    (hnd : (c.entries.map Prod.fst).Nodup) :
    (∀ v, (MemoryCache.get now k c).1 = some v ↔
      ∃ e, mapGet k c.entries = some e ∧ e.data = v ∧ now - e.timestamp ≤ e.ttl) ∧
    (∀ e, mapGet k c.entries = some e → now - e.timestamp > e.ttl →
      (MemoryCache.get now k c).1 = none ∧
      mapGet k (MemoryCache.get now k c).2.entries = none ∧
      (MemoryCache.has now k c).1 = false) := by
  constructor
  · intro v
    cases hm : mapGet k c.entries with
    | none =>
      rw [MemoryCache.get_of_none now k c hm]
      constructor
      · intro h; exact absurd h (by simp)
      · rintro ⟨e, he, -, -⟩
        exact absurd he (by simp)
    | some e =>
      cases hexp : isExpired now e with
      | true =>
        rw [MemoryCache.get_of_expired now k c e hm hexp]
        simp only [isExpired, decide_eq_true_eq] at hexp
        constructor
        · intro h; exact absurd h (by simp)
        · rintro ⟨e', he', -, hfresh⟩
          injection he' with he''
          subst he''
          omega
      | false =>
        rw [MemoryCache.get_of_fresh now k c e hm hexp]
        simp only [isExpired, decide_eq_false_iff_not, Nat.not_lt] at hexp
        constructor
        · rintro h
          simp only [Option.some_inj] at h
          exact ⟨e, rfl, h, hexp⟩
        · rintro ⟨e', he', hd, -⟩
          injection he' with he''
          subst he''
          simp [hd]
  · intro e he hexp
    have hexpb : isExpired now e = true := by
      simp [isExpired, hexp]
    rw [MemoryCache.get_of_expired now k c e he hexpb,
      MemoryCache.has_of_expired now k c e he hexpb]
    exact ⟨rfl, mapGet_mapDelete_self k c.entries hnd, rfl⟩

/-- C1 witness: a concrete expired entry (inserted at time 0 with a 1-second
TTL, read at 2000 ms) yields an absent `get`, deletion of the entry, and a
`false` `has`. -/
theorem cache_get_has_ttl_semantics_witness :
    (MemoryCache.get 2000 "k" ⟨[("k", ⟨Value.json "ab", 0, 1000⟩)], 100, 3600⟩).1 = none ∧
    mapGet "k" (MemoryCache.get 2000 "k"
      ⟨[("k", ⟨Value.json "ab", 0, 1000⟩)], 100, 3600⟩).2.entries = none ∧
    (MemoryCache.has 2000 "k" ⟨[("k", ⟨Value.json "ab", 0, 1000⟩)], 100, 3600⟩).1 = false :=
  (cache_get_has_ttl_semantics 2000 "k"
      ⟨[("k", ⟨Value.json "ab", 0, 1000⟩)], 100, 3600⟩ (by decide)).2
    ⟨Value.json "ab", 0, 1000⟩ (by decide) (by decide)

/-- C2: starting from a cache whose footprint respects the budget, every
operation leaves the sum of the estimated entry sizes at or below
`maxSize`; a `set` whose value's estimated size alone exceeds the budget
only performs the expired-entry sweep and stores nothing (a key absent
before such a `set` is still absent), raising no error. -/
theorem cache_size_never_exceeds_budget (now : Nat) (k : String) (v : Value)
    (t : Option Nat) (c : MemoryCache)
    (hinv : currentSize c.entries ≤ c.maxSize) :
    (∀ c', MemoryCache.set now k v t c = some c' →
      currentSize c'.entries ≤ c'.maxSize ∧ c'.maxSize = c.maxSize) ∧
    currentSize (MemoryCache.get now k c).2.entries ≤ c.maxSize ∧
    currentSize (MemoryCache.has now k c).2.entries ≤ c.maxSize ∧
    currentSize (MemoryCache.delete k c).2.entries ≤ c.maxSize ∧
    currentSize (MemoryCache.clear c).entries ≤ c.maxSize ∧
    (estimateSize v > c.maxSize →
      MemoryCache.set now k v t c = some (MemoryCache.evictExpired now c) ∧
      (mapGet k c.entries = none →
        mapGet k (MemoryCache.evictExpired now c).entries = none)) := by
  refine ⟨?_, ?_, ?_, ?_, ?_, ?_⟩
  · intro c' hset
    unfold MemoryCache.set at hset
    by_cases hsz : estimateSize v > c.maxSize
    · rw [if_pos hsz] at hset
      simp only [Option.some_inj] at hset
      subst hset
      exact ⟨Nat.le_trans (currentSize_filter_le _ _) hinv, rfl⟩
    · rw [if_neg hsz] at hset
      cases hmr : makeRoom (estimateSize v) c.maxSize (c.evictExpired now).entries with
      | none => rw [hmr] at hset; exact absurd hset (by simp)
      | some l2 =>
        rw [hmr] at hset
        simp only [Option.some_inj] at hset
        subst hset
        refine ⟨?_, rfl⟩
        show currentSize (mapSet k ⟨v, now, resolveTtl t c.defaultTtl * 1000⟩ l2) ≤ c.maxSize
        rcases makeRoom_spec _ _ _ _ hmr with hroom | hempty
        · have h2 : currentSize (mapSet k ⟨v, now, resolveTtl t c.defaultTtl * 1000⟩ l2) ≤
              estimateSize v + currentSize l2 := currentSize_mapSet_le _ _ _
          omega
        · subst hempty
          have : currentSize (mapSet k ⟨v, now, resolveTtl t c.defaultTtl * 1000⟩ []) =
              estimateSize v := by
            simp [mapSet, currentSize]
          omega
  · cases hm : mapGet k c.entries with
    | none => rw [MemoryCache.get_of_none now k c hm]; exact hinv
    | some e =>
      cases hexp : isExpired now e with
      | true =>
        rw [MemoryCache.get_of_expired now k c e hm hexp]
        exact Nat.le_trans (currentSize_mapDelete_le _ _) hinv
      | false => rw [MemoryCache.get_of_fresh now k c e hm hexp]; exact hinv
  · cases hm : mapGet k c.entries with
    | none => rw [MemoryCache.has_of_none now k c hm]; exact hinv
    | some e =>
      cases hexp : isExpired now e with
      | true =>
        rw [MemoryCache.has_of_expired now k c e hm hexp]
        exact Nat.le_trans (currentSize_mapDelete_le _ _) hinv
      | false => rw [MemoryCache.has_of_fresh now k c e hm hexp]; exact hinv
  · exact Nat.le_trans (currentSize_mapDelete_le _ _) hinv
  · exact Nat.zero_le _
  · intro hsz
    refine ⟨?_, ?_⟩
    · unfold MemoryCache.set
      rw [if_pos hsz]
    · intro hnone
      exact mapGet_filter_none _ _ _ hnone

/-- C2 witness: a concrete run.  A cache with a 20-byte budget holding one
8-byte entry accepts another 8-byte entry without exceeding the budget, and
refuses a 30-byte value outright. -/
theorem cache_size_never_exceeds_budget_witness :
    (∀ c', MemoryCache.set 5 "b" (Value.json "5678") none
        ⟨[("a", ⟨Value.json "1234", 0, 3600000⟩)], 20, 3600⟩ = some c' →
      currentSize c'.entries ≤ c'.maxSize ∧ c'.maxSize = 20) ∧
    (estimateSize (Value.json "0123456789abcde") > 20 →
      MemoryCache.set 5 "b" (Value.json "0123456789abcde") none
          ⟨[("a", ⟨Value.json "1234", 0, 3600000⟩)], 20, 3600⟩ =
        some (MemoryCache.evictExpired 5
          ⟨[("a", ⟨Value.json "1234", 0, 3600000⟩)], 20, 3600⟩) ∧
      (mapGet "b" [("a", ⟨Value.json "1234", 0, 3600000⟩)] = none →
        mapGet "b" (MemoryCache.evictExpired 5
          ⟨[("a", ⟨Value.json "1234", 0, 3600000⟩)], 20, 3600⟩).entries = none)) :=
  ⟨(cache_size_never_exceeds_budget 5 "b" (Value.json "5678") none
      ⟨[("a", ⟨Value.json "1234", 0, 3600000⟩)], 20, 3600⟩ (by decide)).1,
   (cache_size_never_exceeds_budget 5 "b" (Value.json "0123456789abcde") none
      ⟨[("a", ⟨Value.json "1234", 0, 3600000⟩)], 20, 3600⟩ (by decide)).2.2.2.2.2⟩

theorem MemoryCache.set_empty (now : Nat) (k : String) (v : Value) (t : Option Nat)
    (maxSize defaultTtl : Nat) (hfits : ¬ estimateSize v > maxSize) :
    MemoryCache.set now k v t ⟨[], maxSize, defaultTtl⟩ =
      some ⟨[(k, ⟨v, now, resolveTtl t defaultTtl * 1000⟩)], maxSize, defaultTtl⟩ := by
  unfold MemoryCache.set
  rw [if_neg (show ¬ estimateSize v > (⟨[], maxSize, defaultTtl⟩ : MemoryCache).maxSize
    from hfits)]
  rfl

theorem cache_set_bound (now : Nat) (k : String) (v : Value) (t : Option Nat)
    (c c' : MemoryCache) (hinv : currentSize c.entries ≤ c.maxSize)
    (hset : MemoryCache.set now k v t c = some c') :
    currentSize c'.entries ≤ c'.maxSize ∧ c'.maxSize = c.maxSize := by
  unfold MemoryCache.set at hset
  by_cases hsz : estimateSize v > c.maxSize
  · rw [if_pos hsz] at hset
    simp only [Option.some_inj] at hset
    subst hset
    exact ⟨Nat.le_trans (currentSize_filter_le _ _) hinv, rfl⟩
  · rw [if_neg hsz] at hset
    cases hmr : makeRoom (estimateSize v) c.maxSize (c.evictExpired now).entries with
    | none => rw [hmr] at hset; exact absurd hset (by simp)
    | some l2 =>
      rw [hmr] at hset
      simp only [Option.some_inj] at hset
      subst hset
      refine ⟨?_, rfl⟩
      show currentSize (mapSet k ⟨v, now, resolveTtl t c.defaultTtl * 1000⟩ l2) ≤ c.maxSize
      rcases makeRoom_spec _ _ _ _ hmr with hroom | hempty
      · have h2 : currentSize (mapSet k ⟨v, now, resolveTtl t c.defaultTtl * 1000⟩ l2) ≤
            estimateSize v + currentSize l2 := currentSize_mapSet_le _ _ _
        omega
      · subst hempty
        have h3 : currentSize (mapSet k ⟨v, now, resolveTtl t c.defaultTtl * 1000⟩ []) =
            estimateSize v := by
          simp [mapSet, currentSize]
        omega

theorem cache_get_bound (now : Nat) (k : String) (c : MemoryCache)
    (hinv : currentSize c.entries ≤ c.maxSize) :
    currentSize (MemoryCache.get now k c).2.entries ≤ (MemoryCache.get now k c).2.maxSize ∧
      (MemoryCache.get now k c).2.maxSize = c.maxSize := by
  cases hm : mapGet k c.entries with
  | none => rw [MemoryCache.get_of_none now k c hm]; exact ⟨hinv, rfl⟩
  | some e =>
    cases hexp : isExpired now e with
    | true =>
      rw [MemoryCache.get_of_expired now k c e hm hexp]
      exact ⟨Nat.le_trans (currentSize_mapDelete_le _ _) hinv, rfl⟩
    | false => rw [MemoryCache.get_of_fresh now k c e hm hexp]; exact ⟨hinv, rfl⟩

theorem sorted_take_drop_le {α : Type} (f : α → Nat) (l : List α) (n : Nat)
    (hs : (l.map f).Sorted (· ≤ ·)) :
    ∀ p ∈ l.take n, ∀ q ∈ l.drop n, f p ≤ f q := by
  intro p hp q hq
  have hsplit : l.map f = (l.take n).map f ++ (l.drop n).map f := by
    rw [← List.map_append, List.take_append_drop]
  rw [hsplit] at hs
  exact (List.pairwise_append.mp hs).2.2 (f p) (List.mem_map_of_mem f hp)
    (f q) (List.mem_map_of_mem f hq)

/-- C3 counterexample: storing a value whose serialization fails does not
leave the key absent.  After `set` of a circular value on a fresh
default-configured cache, `has(key)` is `true` and `get(key)` returns the
value: `estimateSize` catches the serialization failure internally and
charges a default 1024 bytes, and `set` then stores the entry normally. -/
theorem circular_value_is_stored_cex :
    MemoryCache.set 0 "k" Value.circular none (MemoryCache.create none none) =
      some ⟨[("k", ⟨Value.circular, 0, 3600000⟩)], 104857600, 3600⟩ ∧
    (MemoryCache.has 0 "k" ⟨[("k", ⟨Value.circular, 0, 3600000⟩)], 104857600, 3600⟩).1 =
      true ∧
    (MemoryCache.get 0 "k" ⟨[("k", ⟨Value.circular, 0, 3600000⟩)], 104857600, 3600⟩).1 =
      some Value.circular :=
  ⟨by decide, by decide, by decide⟩

/-- C3 amended: a value whose serialization fails is charged the default
estimated size of 1024 bytes and, when that default size fits the budget,
is stored normally: `set` never raises, and immediately afterwards
`get(key)` returns the value and `has(key)` is `true`. -/
theorem circular_value_stored_with_default_size (now : Nat) (k : String)
    (t : Option Nat) (c c' : MemoryCache)
    (hset : MemoryCache.set now k Value.circular t c = some c')
    (hfits : ¬ estimateSize Value.circular > c.maxSize) :
    estimateSize Value.circular = 1024 ∧
    (MemoryCache.get now k c').1 = some Value.circular ∧
    (MemoryCache.has now k c').1 = true := by
  refine ⟨rfl, ?_⟩
  unfold MemoryCache.set at hset
  rw [if_neg hfits] at hset
  cases hmr : makeRoom (estimateSize Value.circular) c.maxSize
      (c.evictExpired now).entries with
  | none => rw [hmr] at hset; exact absurd hset (by simp)
  | some l2 =>
    rw [hmr] at hset
    simp only [Option.some_inj] at hset
    subst hset
    have hm : mapGet k (mapSet k ⟨Value.circular, now, resolveTtl t c.defaultTtl * 1000⟩ l2) =
        some ⟨Value.circular, now, resolveTtl t c.defaultTtl * 1000⟩ :=
      mapGet_mapSet_self _ _ _
    have hx : isExpired now (⟨Value.circular, now, resolveTtl t c.defaultTtl * 1000⟩ :
        CacheEntry) = false := by
      simp [isExpired]
    constructor
    · rw [MemoryCache.get_of_fresh now k _ _ hm hx]
    · rw [MemoryCache.has_of_fresh now k _ _ hm hx]

/-- C3 amended witness: the concrete run of the counterexample, obtained by
applying the amended theorem. -/
theorem circular_value_stored_with_default_size_witness :
    estimateSize Value.circular = 1024 ∧
    (MemoryCache.get 0 "k" ⟨[("k", ⟨Value.circular, 0, 3600000⟩)], 104857600, 3600⟩).1 =
      some Value.circular ∧
    (MemoryCache.has 0 "k" ⟨[("k", ⟨Value.circular, 0, 3600000⟩)], 104857600, 3600⟩).1 =
      true :=
  circular_value_stored_with_default_size 0 "k" none (MemoryCache.create none none)
    ⟨[("k", ⟨Value.circular, 0, 3600000⟩)], 104857600, 3600⟩ (by decide) (by decide)

/-- C4 counterexample: the budget is not shared across the four partitions.
With `CACHE_MAX_SIZE = 100`, each partition gets its own 100-byte ceiling;
storing an 80-byte value in the package-info partition and another in the
README partition leaves a combined footprint of 160 bytes, exceeding the
single configured maximum of 100. -/
theorem shared_budget_cex :
    smallManager.packageInfoCache.maxSize = 100 ∧
    smallManager.packageReadmeCache.maxSize = 100 ∧
    smallManager.searchCache.maxSize = 100 ∧
    smallManager.generalCache.maxSize = 100 ∧
    smallManagerFilled.map managerTotalSize = some 160 :=
  ⟨by decide, by decide, by decide, by decide, by decide⟩

/-- C4 amended: `maxSizeBytes` is a per-partition ceiling, configured with
the same value for all four partitions of a manager: each partition's own
footprint never exceeds `maxSizeBytes`, and the combined footprint of the
four partitions is bounded by `4 * maxSizeBytes` (not by `maxSizeBytes`).
The bound is preserved by the manager's store and lookup operations. -/
theorem per_partition_budget (m m' : CacheManager) (M now : Nat)
    (name version qh k : String) (limit : Nat) (v : Value) (t : Option Nat)
    (hmax : managerMaxSizesEq m M) (hb : managerBounded m) :
    (∀ envT envM, managerMaxSizesEq (CacheManager.init envT envM)
      (orFalsyDefault (some (envM.getD 104857600)) (100 * 1024 * 1024))) ∧
    managerTotalSize m ≤ 4 * M ∧
    (m.setPackageInfo now name version v = some m' →
      managerBounded m' ∧ managerMaxSizesEq m' M) ∧
    (m.setPackageReadme now name version v = some m' →
      managerBounded m' ∧ managerMaxSizesEq m' M) ∧
    (m.setSearchResults now qh limit v = some m' →
      managerBounded m' ∧ managerMaxSizesEq m' M) ∧
    (m.setGeneral now k v t = some m' →
      managerBounded m' ∧ managerMaxSizesEq m' M) ∧
    managerBounded (m.getPackageInfo now name version).2 ∧
    managerBounded (m.getPackageReadme now name version).2 := by
  obtain ⟨hm1, hm2, hm3, hm4⟩ := hmax
  obtain ⟨hb1, hb2, hb3, hb4⟩ := hb
  refine ⟨?_, ?_, ?_, ?_, ?_, ?_, ?_, ?_⟩
  · intro envT envM
    exact ⟨rfl, rfl, rfl, rfl⟩
  · have e1 : currentSize m.packageInfoCache.entries ≤ M := hm1 ▸ hb1
    have e2 : currentSize m.packageReadmeCache.entries ≤ M := hm2 ▸ hb2
    have e3 : currentSize m.searchCache.entries ≤ M := hm3 ▸ hb3
    have e4 : currentSize m.generalCache.entries ≤ M := hm4 ▸ hb4
    unfold managerTotalSize
    omega
  · intro hset
    unfold CacheManager.setPackageInfo at hset
    cases hs : MemoryCache.set now (pkgInfoKey name version) v none m.packageInfoCache with
    | none => rw [hs] at hset; exact absurd hset (by simp)
    | some cNew =>
      rw [hs] at hset
      simp only [Option.map_some', Option.some_inj] at hset
      subst hset
      have hbd := cache_set_bound _ _ _ _ _ _ hb1 hs
      exact ⟨⟨hbd.1, hb2, hb3, hb4⟩, ⟨hbd.2.trans hm1, hm2, hm3, hm4⟩⟩
  · intro hset
    unfold CacheManager.setPackageReadme at hset
    cases hs : MemoryCache.set now (pkgReadmeKey name version) v none m.packageReadmeCache with
    | none => rw [hs] at hset; exact absurd hset (by simp)
    | some cNew =>
      rw [hs] at hset
      simp only [Option.map_some', Option.some_inj] at hset
      subst hset
      have hbd := cache_set_bound _ _ _ _ _ _ hb2 hs
      exact ⟨⟨hb1, hbd.1, hb3, hb4⟩, ⟨hm1, hbd.2.trans hm2, hm3, hm4⟩⟩
  · intro hset
    unfold CacheManager.setSearchResults at hset
    cases hs : MemoryCache.set now ("search:" ++ qh ++ ":" ++ toString limit) v none
        m.searchCache with
    | none => rw [hs] at hset; exact absurd hset (by simp)
    | some cNew =>
      rw [hs] at hset
      simp only [Option.map_some', Option.some_inj] at hset
      subst hset
      have hbd := cache_set_bound _ _ _ _ _ _ hb3 hs
      exact ⟨⟨hb1, hb2, hbd.1, hb4⟩, ⟨hm1, hm2, hbd.2.trans hm3, hm4⟩⟩
  · intro hset
    unfold CacheManager.setGeneral at hset
    cases hs : MemoryCache.set now k v t m.generalCache with
    | none => rw [hs] at hset; exact absurd hset (by simp)
    | some cNew =>
      rw [hs] at hset
      simp only [Option.map_some', Option.some_inj] at hset
      subst hset
      have hbd := cache_set_bound _ _ _ _ _ _ hb4 hs
      exact ⟨⟨hb1, hb2, hb3, hbd.1⟩, ⟨hm1, hm2, hm3, hbd.2.trans hm4⟩⟩
  · have hbd := cache_get_bound now (pkgInfoKey name version) m.packageInfoCache hb1
    exact ⟨hbd.1, hb2, hb3, hb4⟩
  · have hbd := cache_get_bound now (pkgReadmeKey name version) m.packageReadmeCache hb2
    exact ⟨hb1, hbd.1, hb3, hb4⟩

/-- C4 amended witness: the amended theorem applied to the concrete
100-byte-per-partition manager, yielding the `4 * 100` combined bound. -/
theorem per_partition_budget_witness :
    managerTotalSize smallManager ≤ 4 * 100 :=
  (per_partition_budget smallManager smallManager 100 0 "p" "1" "q" "k" 5
    str40Value none (by unfold managerMaxSizesEq; decide)
    (by unfold managerBounded cacheBounded; decide)).2.1

/-- C5 counterexample: eviction removes the entry at the front of the map's
insertion order, not the entry with the oldest insertion timestamp.  After
inserting `a` at time 0 and `b` at time 1 and then overwriting `a` at time
2 (which keeps `a` at the front of the map but gives it the newest
timestamp), inserting a 90-byte entry `c` evicts `a` (timestamp 2) even
though `b` (timestamp 1) holds the oldest insertion timestamp — the claim
predicts `b` would be evicted and `a` retained. -/
theorem evict_oldest_timestamp_cex :
    evictRun3 = some ⟨[("a", ⟨Value.json "wxyz", 2, 3600000⟩),
        ("b", ⟨Value.json "5678", 1, 3600000⟩)], 100, 3600⟩ ∧
    evictRun4 = some ⟨[("b", ⟨Value.json "5678", 1, 3600000⟩),
        ("c", ⟨str45Value, 3, 3600000⟩)], 100, 3600⟩ :=
  ⟨by decide, by decide⟩

/-- C5 amended: during `set` (with a value that fits the budget), after the
expired-entry sweep, eviction repeatedly drops the entry at the front of
the map's insertion order until there is room or the cache is empty, and
the new entry is then inserted.  When the surviving entries' timestamps
are non-decreasing in map order — as they are for sequences of `set`
calls that never overwrite an existing key — every evicted entry's
timestamp is at most every survivor's timestamp, i.e. front-of-map
eviction coincides with oldest-insertion-timestamp eviction exactly in
the overwrite-free case. -/
theorem set_evicts_from_front (now : Nat) (k : String) (v : Value)
    (t : Option Nat) (c c' : MemoryCache)
    (hsz : ¬ estimateSize v > c.maxSize)
    (hset : MemoryCache.set now k v t c = some c') :
    ∃ n, c'.entries =
        mapSet k ⟨v, now, resolveTtl t c.defaultTtl * 1000⟩
          ((MemoryCache.evictExpired now c).entries.drop n) ∧
      (((MemoryCache.evictExpired now c).entries.map
          (fun p => p.2.timestamp)).Sorted (· ≤ ·) →
        ∀ p ∈ (MemoryCache.evictExpired now c).entries.take n,
        ∀ q ∈ (MemoryCache.evictExpired now c).entries.drop n,
          p.2.timestamp ≤ q.2.timestamp) := by
  unfold MemoryCache.set at hset
  rw [if_neg hsz] at hset
  cases hmr : makeRoom (estimateSize v) c.maxSize (c.evictExpired now).entries with
  | none => rw [hmr] at hset; exact absurd hset (by simp)
  | some l2 =>
    rw [hmr] at hset
    simp only [Option.some_inj] at hset
    subst hset
    obtain ⟨n, hn⟩ := makeRoom_drop _ _ _ _ hmr
    subst hn
    exact ⟨n, rfl, fun hs => sorted_take_drop_le _ _ n hs⟩

/-- C5 amended witness: the amended theorem applied to the overwrite-free
cache `[a@0, b@1]` receiving the 90-byte entry `c`: the eviction drops a
prefix of the map, and since timestamps are sorted, every dropped entry is
at least as old as every survivor. -/
theorem set_evicts_from_front_witness :
    ∃ n, (⟨[("b", ⟨Value.json "5678", 1, 3600000⟩),
          ("c", ⟨str45Value, 3, 3600000⟩)], 100, 3600⟩ : MemoryCache).entries =
        mapSet "c" ⟨str45Value, 3, resolveTtl none 3600 * 1000⟩
          ((MemoryCache.evictExpired 3
            ⟨[("a", ⟨Value.json "1234", 0, 3600000⟩),
              ("b", ⟨Value.json "5678", 1, 3600000⟩)], 100, 3600⟩).entries.drop n) ∧
      (((MemoryCache.evictExpired 3
          ⟨[("a", ⟨Value.json "1234", 0, 3600000⟩),
            ("b", ⟨Value.json "5678", 1, 3600000⟩)], 100, 3600⟩).entries.map
          (fun p => p.2.timestamp)).Sorted (· ≤ ·) →
        ∀ p ∈ (MemoryCache.evictExpired 3
            ⟨[("a", ⟨Value.json "1234", 0, 3600000⟩),
              ("b", ⟨Value.json "5678", 1, 3600000⟩)], 100, 3600⟩).entries.take n,
        ∀ q ∈ (MemoryCache.evictExpired 3
            ⟨[("a", ⟨Value.json "1234", 0, 3600000⟩),
              ("b", ⟨Value.json "5678", 1, 3600000⟩)], 100, 3600⟩).entries.drop n,
          p.2.timestamp ≤ q.2.timestamp) :=
  set_evicts_from_front 3 "c" str45Value none
    ⟨[("a", ⟨Value.json "1234", 0, 3600000⟩),
      ("b", ⟨Value.json "5678", 1, 3600000⟩)], 100, 3600⟩
    ⟨[("b", ⟨Value.json "5678", 1, 3600000⟩),
      ("c", ⟨str45Value, 3, 3600000⟩)], 100, 3600⟩
    (by decide) (by decide)

/-- C6 counterexample: an entry stored through the README partition of a
default-configured manager (no environment overrides) is still present
1800001 ms (strictly more than 30 minutes) after insertion — its default
TTL is 3600 seconds, not the 30 minutes the claim states. -/
theorem readme_ttl_thirty_minutes_cex :
    readmeRun.map (fun m => (CacheManager.getPackageReadme 1800001 "pkg" "1.0.0" m).1) =
      some (some (Value.json "readme text")) := by
  decide

/-- C6 amended: under the default configuration the partition default TTLs
are: package metadata 1 hour, README content 1 hour (not 30 minutes),
search results 30 minutes, general purpose caller-specified or 1 hour.
An entry stored via the README partition without an override is returned
while at most 3600000 ms have elapsed and becomes absent strictly after
3600 seconds. -/
theorem partition_default_ttls (name version : String) (v : Value) (t0 now : Nat)
    (m' : CacheManager)
    (hfits : ¬ estimateSize v > 104857600)
    (hset : CacheManager.setPackageReadme t0 name version v
      (CacheManager.init none none) = some m') :
    (CacheManager.init none none).packageInfoCache.defaultTtl = 3600 ∧
    (CacheManager.init none none).packageReadmeCache.defaultTtl = 3600 ∧
    (CacheManager.init none none).searchCache.defaultTtl = 1800 ∧
    (CacheManager.init none none).generalCache.defaultTtl = 3600 ∧
    (now - t0 ≤ 3600000 →
      (CacheManager.getPackageReadme now name version m').1 = some v) ∧
    (now - t0 > 3600000 →
      (CacheManager.getPackageReadme now name version m').1 = none) := by
  have hset' : (MemoryCache.set t0 (pkgReadmeKey name version) v none
      ⟨[], 104857600, 3600⟩).map
        (fun c => { CacheManager.init none none with packageReadmeCache := c }) =
      some m' := hset
  rw [MemoryCache.set_empty t0 (pkgReadmeKey name version) v none 104857600 3600 hfits]
    at hset'
  simp only [Option.map_some', Option.some_inj] at hset'
  subst hset'
  have hm : mapGet (pkgReadmeKey name version)
      [(pkgReadmeKey name version, (⟨v, t0, 3600000⟩ : CacheEntry))] =
      some ⟨v, t0, 3600000⟩ := by
    rw [mapGet_cons, if_pos rfl]
  have hg : (CacheManager.getPackageReadme now name version
      { CacheManager.init none none with
        packageReadmeCache :=
          ⟨[(pkgReadmeKey name version, ⟨v, t0, resolveTtl none 3600 * 1000⟩)],
            104857600, 3600⟩ }).1 =
      (MemoryCache.get now (pkgReadmeKey name version)
        ⟨[(pkgReadmeKey name version, ⟨v, t0, 3600000⟩)], 104857600, 3600⟩).1 := rfl
  refine ⟨rfl, rfl, rfl, rfl, ?_, ?_⟩
  · intro hage
    rw [hg]
    have hx : isExpired now (⟨v, t0, 3600000⟩ : CacheEntry) = false := by
      simp only [isExpired, decide_eq_false_iff_not, Nat.not_lt]
      omega
    rw [MemoryCache.get_of_fresh now (pkgReadmeKey name version)
      ⟨[(pkgReadmeKey name version, ⟨v, t0, 3600000⟩)], 104857600, 3600⟩
      ⟨v, t0, 3600000⟩ hm hx]
  · intro hage
    rw [hg]
    have hx : isExpired now (⟨v, t0, 3600000⟩ : CacheEntry) = true := by
      simp only [isExpired, decide_eq_true_eq]
      omega
    rw [MemoryCache.get_of_expired now (pkgReadmeKey name version)
      ⟨[(pkgReadmeKey name version, ⟨v, t0, 3600000⟩)], 104857600, 3600⟩
      ⟨v, t0, 3600000⟩ hm hx]

/-- C6 amended witness: the concrete README entry stored at time 0 is
absent at 3600001 ms, strictly after one hour. -/
theorem partition_default_ttls_witness :
    (CacheManager.getPackageReadme 3600001 "pkg" "1.0.0" readmeRunResult).1 = none :=
  (partition_default_ttls "pkg" "1.0.0" (Value.json "readme text") 0 3600001
    readmeRunResult (by decide) (by decide)).2.2.2.2.2 (by decide)

theorem dropWhile_dropWhile (p : Char → Bool) (l : Chars) :
    (l.dropWhile p).dropWhile p = l.dropWhile p := by
  induction l with
  | nil => rfl
  | cons a as ih =>
    by_cases h : p a
    · rw [List.dropWhile_cons_of_pos h]; exact ih
    · rw [List.dropWhile_cons_of_neg h, List.dropWhile_cons_of_neg h]

theorem dropWhile_eq_drop (p : Char → Bool) (l : Chars) :
    ∃ m, l.dropWhile p = l.drop m := by
  induction l with
  | nil => exact ⟨0, rfl⟩
  | cons a as ih =>
    by_cases h : p a
    · obtain ⟨m, hm⟩ := ih
      exact ⟨m + 1, by rw [List.dropWhile_cons_of_pos h, List.drop_succ_cons]; exact hm⟩
    · exact ⟨0, by rw [List.dropWhile_cons_of_neg h, List.drop_zero]⟩

theorem dropWhile_take_dropWhile (p : Char → Bool) (l : Chars) (j : Nat) :
    ((l.dropWhile p).take j).dropWhile p = (l.dropWhile p).take j := by
  induction l with
  | nil => simp
  | cons a as ih =>
    by_cases h : p a
    · rw [List.dropWhile_cons_of_pos h]; exact ih
    · rw [List.dropWhile_cons_of_neg h]
      cases j with
      | zero => simp
      | succ j2 =>
        rw [List.take_succ_cons, List.dropWhile_cons_of_neg h]

theorem trimChars_idem (l : Chars) : trimChars (trimChars l) = trimChars l := by
  have L1 : (trimChars l).dropWhile jsWhitespace = trimChars l := by
    obtain ⟨m, hm⟩ := dropWhile_eq_drop jsWhitespace (l.dropWhile jsWhitespace).reverse
    have ht : trimChars l =
        (l.dropWhile jsWhitespace).take ((l.dropWhile jsWhitespace).length - m) := by
      unfold trimChars
      rw [hm, List.reverse_drop, List.reverse_reverse, List.length_reverse]
    rw [ht]
    exact dropWhile_take_dropWhile jsWhitespace l _
  have L2 : (trimChars l).reverse.dropWhile jsWhitespace = (trimChars l).reverse := by
    show ((((l.dropWhile jsWhitespace).reverse.dropWhile jsWhitespace).reverse).reverse).dropWhile
        jsWhitespace = _
    rw [List.reverse_reverse, dropWhile_dropWhile]
    exact (List.reverse_reverse _).symm
  show (((trimChars l).dropWhile jsWhitespace).reverse.dropWhile jsWhitespace).reverse =
    trimChars l
  rw [L1, L2, List.reverse_reverse]

theorem length_mapWithIndexFrom (f : Nat → CodeBlock → UsageExample) (s : Nat)
    (l : List CodeBlock) : (mapWithIndexFrom f s l).length = l.length := by
  induction l generalizing s with
  | nil => rfl
  | cons b bs ih => simp [mapWithIndexFrom, ih]

theorem get_mapWithIndexFrom (f : Nat → CodeBlock → UsageExample) (s : Nat)
    (l : List CodeBlock) (i : Nat) (h : i < (mapWithIndexFrom f s l).length)
    (h2 : i < l.length) :
    (mapWithIndexFrom f s l).get ⟨i, h⟩ = f (s + i) (l.get ⟨i, h2⟩) := by
  induction l generalizing s i with
  | nil => exact absurd h2 (by simp)
  | cons b bs ih =>
    cases i with
    | zero => rfl
    | succ j =>
      have hj : j < (mapWithIndexFrom f (s + 1) bs).length := by
        have := h
        simp only [mapWithIndexFrom, List.length_cons] at this
        omega
      have hj2 : j < bs.length := by
        simp only [List.length_cons] at h2
        omega
      have step : (mapWithIndexFrom f s (b :: bs)).get ⟨j + 1, h⟩ =
          (mapWithIndexFrom f (s + 1) bs).get ⟨j, hj⟩ := rfl
      rw [step, ih (s + 1) j hj hj2]
      have : s + 1 + j = s + (j + 1) := by omega
      rw [this]
      rfl

/-- C7 counterexample: the whole-document fallback is not applied "exactly
when the document contains no usage-section heading".  `fallbackCexDoc`
contains the usage heading `## Usage`, yet its only example carries the
generic fallback title `Usage Example` (and comes from a block outside any
usage section): the usage section exists but holds no code block, so the
section-scoped pass yields nothing and the fallback fires anyway. -/
theorem fallback_despite_usage_heading_cex :
    (splitLines fallbackCexDoc.data).any isUsageHeader = true ∧
    (extractUsageExamples fallbackCexDoc.data).map (fun e => e.title) =
      ["Usage Example".data] :=
  ⟨by decide, by decide⟩

/-- C7 amended: the whole-document fallback (generic `Usage Example`
titles) applies exactly when the section-scoped extraction yields zero
candidate examples — which happens both when no usage heading exists and
when no usage section contains a fenced code block.  When the sections
yield at least one candidate, every returned example is a cleaned section
candidate (no generic fallback title is introduced). -/
theorem fallback_exactly_when_no_section_examples (content : Chars) :
    (sectionExamples content = [] →
      ∀ e ∈ extractUsageExamples content, e.title = "Usage Example".data) ∧
    (sectionExamples content ≠ [] →
      ∀ e ∈ extractUsageExamples content,
        ∃ c0 ∈ sectionExamples content, e = cleanUsageExample c0) := by
  have hform : extractUsageExamples content =
      (((if (sectionExamples content).isEmpty then fallbackExamples content
        else sectionExamples content).filter isValidUsageExample).map
        cleanUsageExample).take 10 := rfl
  constructor
  · intro hempty e he
    rw [hform, hempty] at he
    simp only [List.isEmpty_nil, if_true] at he
    obtain ⟨c0, hc0, rfl⟩ := List.mem_map.mp (List.mem_of_mem_take he)
    have hc1 := (List.mem_filter.mp hc0).1
    obtain ⟨b, -, rfl⟩ := List.mem_map.mp hc1
    show trimChars ("Usage Example".data) = "Usage Example".data
    decide
  · intro hne e he
    rw [hform] at he
    rw [if_neg (by simpa using (List.isEmpty_eq_false.mpr hne))] at he
    obtain ⟨c0, hc0, rfl⟩ := List.mem_map.mp (List.mem_of_mem_take he)
    exact ⟨c0, (List.mem_filter.mp hc0).1, rfl⟩

/-- C7 amended witness: `fallbackCexDoc` has zero section candidates, so by
the amended theorem every returned example carries the generic title. -/
theorem fallback_exactly_when_no_section_examples_witness :
    sectionExamples fallbackCexDoc.data = [] ∧
    ∀ e ∈ extractUsageExamples fallbackCexDoc.data,
      e.title = "Usage Example".data :=
  ⟨by decide,
   (fallback_exactly_when_no_section_examples fallbackCexDoc.data).1 (by decide)⟩

/-- C8: in `extractExamplesFromSection`, a single-block section titles its
example with the section heading verbatim, and a multi-block section titles
the i-th example with the heading followed by the 1-based index; moreover
the spec's round-trip document (`## Usage` over one fenced `swift` block
with a non-trivial statement) yields exactly one example titled `Usage`
with language `swift` and that statement as code. -/
theorem usage_example_titles (t c : Chars) (i : Nat)
    (h : i < (extractExamplesFromSection t c).length) :
    ((extractExamplesFromSection t c).get ⟨i, h⟩).title =
      (if (extractCodeBlocksFromText c).length = 1 then t
       else t ++ ((' ') :: (toString (i + 1)).data)) ∧
    extractUsageExamples usageDoc8.data =
      [⟨"Usage".data, "let x = Manager()".data, "swift".data, none⟩] := by
  constructor
  · have h2 : i < (extractCodeBlocksFromText c).length := by
      have hlen := length_mapWithIndexFrom
        (fun index block =>
          { title :=
              if (extractCodeBlocksFromText c).length = 1 then t
              else t ++ ((' ') :: (toString (index + 1)).data)
            code := block.code
            language := block.language
            description := extractDescription c block.originalIndex })
        0 (extractCodeBlocksFromText c)
      have h3 : i < (mapWithIndexFrom
          (fun index block =>
            { title :=
                if (extractCodeBlocksFromText c).length = 1 then t
                else t ++ ((' ') :: (toString (index + 1)).data)
              code := block.code
              language := block.language
              description := extractDescription c block.originalIndex })
          0 (extractCodeBlocksFromText c)).length := h
      omega
    have hget := get_mapWithIndexFrom
      (fun index block =>
        { title :=
            if (extractCodeBlocksFromText c).length = 1 then t
            else t ++ ((' ') :: (toString (index + 1)).data)
          code := block.code
          language := block.language
          description := extractDescription c block.originalIndex })
      0 (extractCodeBlocksFromText c) i h h2
    show ((mapWithIndexFrom
        (fun index block =>
          { title :=
              if (extractCodeBlocksFromText c).length = 1 then t
              else t ++ ((' ') :: (toString (index + 1)).data)
            code := block.code
            language := block.language
            description := extractDescription c block.originalIndex })
        0 (extractCodeBlocksFromText c)).get ⟨i, h⟩).title = _
    rw [hget]
    simp only [Nat.zero_add]
  · decide

/-- C8 witness: the second example of a two-block section titled `T` gets
the indexed title `T 2`, and the round-trip document yields its single
`Usage`-titled example. -/
theorem usage_example_titles_witness :
    ((extractExamplesFromSection ("T".data) twoBlockSection.data).get
        ⟨1, by decide⟩).title =
      (if (extractCodeBlocksFromText twoBlockSection.data).length = 1 then "T".data
       else "T".data ++ ((' ') :: (toString (1 + 1)).data)) ∧
    extractUsageExamples usageDoc8.data =
      [⟨"Usage".data, "let x = Manager()".data, "swift".data, none⟩] :=
  usage_example_titles ("T".data) twoBlockSection.data 1 (by decide)

/-- C9: `extractUsageExamples` returns at most 10 examples — the first 10
surviving candidates in document order — with every string field trimmed;
and the concrete 15-valid-block document yields exactly the first 10
blocks' codes, in document order. -/
theorem examples_capped_and_trimmed (content : Chars) :
    (extractUsageExamples content).length ≤ 10 ∧
    (∀ e ∈ extractUsageExamples content,
      e.title = trimChars e.title ∧ e.code = trimChars e.code ∧
      e.language = trimChars e.language ∧
      ∀ d, e.description = some d → d = trimChars d) ∧
    (extractUsageExamples capDoc15.data).map (fun e => e.code) =
      ["let value01 = Example01()".data, "let value02 = Example02()".data,
       "let value03 = Example03()".data, "let value04 = Example04()".data,
       "let value05 = Example05()".data, "let value06 = Example06()".data,
       "let value07 = Example07()".data, "let value08 = Example08()".data,
       "let value09 = Example09()".data, "let value10 = Example10()".data] := by
  have hform : extractUsageExamples content =
      (((if (sectionExamples content).isEmpty then fallbackExamples content
        else sectionExamples content).filter isValidUsageExample).map
        cleanUsageExample).take 10 := rfl
  refine ⟨?_, ?_, by decide⟩
  · rw [hform, List.length_take]
    exact inf_le_left
  · intro e he
    rw [hform] at he
    obtain ⟨c0, hc0, rfl⟩ := List.mem_map.mp (List.mem_of_mem_take he)
    refine ⟨(trimChars_idem _).symm, (trimChars_idem _).symm, (trimChars_idem _).symm, ?_⟩
    intro d hd
    simp only [cleanUsageExample] at hd
    cases hdesc : c0.description with
    | none =>
      simp only [hdesc] at hd
      exact absurd hd (by simp)
    | some d0 =>
      simp only [hdesc] at hd
      by_cases hemp : (trimChars d0).isEmpty
      · rw [if_pos hemp] at hd
        exact absurd hd (by simp)
      · rw [if_neg hemp] at hd
        simp only [Option.some_inj] at hd
        subst hd
        exact (trimChars_idem _).symm

/-- C9 witness: the general statement applied to the 15-block document. -/
theorem examples_capped_and_trimmed_witness :
    (extractUsageExamples capDoc15.data).length ≤ 10 ∧
    ∀ e ∈ extractUsageExamples capDoc15.data, e.code = trimChars e.code :=
  ⟨(examples_capped_and_trimmed capDoc15.data).1,
   fun e he => ((examples_capped_and_trimmed capDoc15.data).2.1 e he).2.1⟩

/-- C10 counterexample: a block fenced with the tag `objective-c` is never
extracted at all — the fence pattern's `(\w+)?` group cannot match a hyphen
and no backtracking alternative leaves the required newline next, so the
document yields no code block and no example — even though the synonym
table itself does map `objective-c` to `objc`. -/
theorem objective_c_tag_never_captured_cex :
    extractCodeBlocksFromText hyphenTagDoc.data = [] ∧
    extractUsageExamples hyphenTagDoc.data = [] ∧
    normalizeLanguage ("objective-c".data) = "objc".data :=
  ⟨by decide, by decide, by decide⟩

/-- C10 amended: every captured fence tag is lowercased and mapped through
the fixed synonym table (which also holds `ts→typescript` and the identity
`swift→swift`); a tag not in the table passes through unchanged (after
lowercasing and trimming) and an absent or empty tag becomes `text`; every
block produced by the extractor carries such a normalized language.  A
block fenced `objectivec` is extracted with language `objc`, but the
hyphenated tag `objective-c` can never be captured by the fence pattern
(`\w` excludes the hyphen), so such a block yields no code block at all:
the table's `objective-c` entry is unreachable from block extraction. -/
theorem language_normalization (tag text : Chars) (b : CodeBlock)
    (hb : b ∈ extractCodeBlocksFromText text)
    (hmiss : lookupLang (trimChars (tag.map Char.toLower)) = none) :
    normalizeLanguage ("js".data) = "javascript".data ∧
    normalizeLanguage ("sh".data) = "bash".data ∧
    normalizeLanguage ("shell".data) = "bash".data ∧
    normalizeLanguage ("zsh".data) = "bash".data ∧
    normalizeLanguage ("fish".data) = "bash".data ∧
    normalizeLanguage ("yml".data) = "yaml".data ∧
    normalizeLanguage ("md".data) = "markdown".data ∧
    normalizeLanguage ("objective-c".data) = "objc".data ∧
    normalizeLanguage ("objectivec".data) = "objc".data ∧
    normalizeLanguage tag =
      (if (trimChars (tag.map Char.toLower)).isEmpty then "text".data
       else trimChars (tag.map Char.toLower)) ∧
    (∃ rawTag : Option Chars,
      b.language = normalizeLanguage (rawTag.getD ("text".data))) ∧
    (extractUsageExamples objcTagDoc.data).map (fun e => e.language) =
      ["objc".data] ∧
    extractCodeBlocksFromText hyphenTagDoc.data = [] := by
  refine ⟨by decide, by decide, by decide, by decide, by decide, by decide, by decide,
    by decide, by decide, ?_, ?_, by decide, by decide⟩
  · have hnl : normalizeLanguage tag =
        (match lookupLang (trimChars (tag.map Char.toLower)) with
         | some v => v
         | none =>
           if (trimChars (tag.map Char.toLower)).isEmpty then "text".data
           else trimChars (tag.map Char.toLower)) := rfl
    rw [hnl, hmiss]
  · obtain ⟨a, ha, hf⟩ := List.mem_filterMap.mp hb
    refine ⟨a.1, ?_⟩
    dsimp only at hf
    by_cases hemp : (trimChars a.2.1).isEmpty
    · rw [if_pos hemp] at hf
      exact absurd hf (by simp)
    · rw [if_neg hemp] at hf
      simp only [Option.some_inj] at hf
      subst hf
      rfl

/-- C10 amended witness: the amended theorem applied to the `objectivec`
document's single block and the unrecognized tag `weird`. -/
theorem language_normalization_witness :
    normalizeLanguage ("weird".data) =
      (if (trimChars ("weird".data.map Char.toLower)).isEmpty then "text".data
       else trimChars ("weird".data.map Char.toLower)) ∧
    ∃ rawTag : Option Chars,
      (⟨"[manager doSomethingImportant];".data, "objc".data, 0⟩ :
        CodeBlock).language = normalizeLanguage (rawTag.getD ("text".data)) :=
  ⟨(language_normalization ("weird".data) objcTagDoc.data
      ⟨"[manager doSomethingImportant];".data, "objc".data, 0⟩
      (by decide) (by decide)).2.2.2.2.2.2.2.2.2.1,
   (language_normalization ("weird".data) objcTagDoc.data
      ⟨"[manager doSomethingImportant];".data, "objc".data, 0⟩
      (by decide) (by decide)).2.2.2.2.2.2.2.2.2.2.1⟩

end SwiftPkgReadme
